import Mathlib

/-!
Verification of the TD3 reinforcement-learning agent (`td3_pytorch/agent.py`)
against its natural-language specification.

Real numbers of the program (rewards, actions, network parameters, the
discount factor, τ, noise draws) are modelled as rationals `ℚ`.  Randomness
(`random.sample`, gaussian noise) is modelled by passing the drawn values
explicitly as parameters.  External collaborators (the gymnasium environment,
the optimizer's gradient step, the neural networks of `td3.py`) enter as
function parameters; the one piece of repository code not present in the
source tree (the actor network's output clamp in `td3.py`) is modelled from
the spec and marked as such.
-/

namespace TD3

/-- A stored transition record, as appended by `ReplayBuffer.add`:
`(state, action, reward, next_state, done)`. -/
structure Transition where
  state : List ℚ
  action : List ℚ
  reward : ℚ
  next_state : List ℚ
  done : Bool
deriving DecidableEq, Repr, Inhabited

/-- The replay buffer: `self.buffer = deque(maxlen=max_size)`.  The deque's
contents are the list `buffer`, oldest element first. -/
structure ReplayBuffer where
  max_size : ℕ
  buffer : List Transition
deriving DecidableEq, Repr

/-- A fresh buffer, as built by `ReplayBuffer.__init__(max_size)`. -/
def ReplayBuffer.empty (max_size : ℕ) : ReplayBuffer :=
  ⟨max_size, []⟩

/-- Operation `ReplayBuffer.add`: `self.buffer.append((state, action, reward, next_state, done))`.
A `deque(maxlen=m)` appends on the right and, when already holding `m`
elements, discards the leftmost (oldest) element; with `m = 0` it stays
empty.  Both behaviours are the single formula below. -/
def ReplayBuffer.add (rb : ReplayBuffer) (t : Transition) : ReplayBuffer :=
  ⟨rb.max_size, (rb.buffer ++ [t]).drop (rb.buffer.length + 1 - rb.max_size)⟩

/-- Operation `ReplayBuffer.size`: `len(self.buffer)`. -/
def ReplayBuffer.size (rb : ReplayBuffer) : ℕ :=
  rb.buffer.length

/-- A sequence of `add` calls, in order. -/
def ReplayBuffer.addAll (rb : ReplayBuffer) (ts : List Transition) : ReplayBuffer :=
  ts.foldl ReplayBuffer.add rb

/-- Operation `ReplayBuffer.sample`: `random.sample(self.buffer, batch_size)` followed by
`zip(*batch)` and conversion of the five columns to arrays.  `random.sample`
raises `ValueError` when `batch_size > len(self.buffer)` (modelled as `none`);
otherwise it returns the elements at `batch_size` distinct random positions —
the random draw is the explicit `draw` parameter, a list of positions. -/
def ReplayBuffer.sample (rb : ReplayBuffer) (batch_size : ℕ) (draw : List ℕ) :
    Option (List (List ℚ) × List (List ℚ) × List ℚ × List (List ℚ) × List Bool) :=
  if batch_size ≤ rb.buffer.length then
    let batch := draw.map (fun i => rb.buffer.getD i default)
    some (batch.map Transition.state, batch.map Transition.action,
          batch.map Transition.reward, batch.map Transition.next_state,
          batch.map Transition.done)
  else
    none

/-- A valid output of `random.sample(buffer, n)`: `n` distinct positions,
all in range — sampling without replacement within the batch. -/
def ValidDraw (rb : ReplayBuffer) (n : ℕ) (draw : List ℕ) : Prop :=
  draw.length = n ∧ draw.Nodup ∧ ∀ i ∈ draw, i < rb.buffer.length

/-- Two-sided clamp of a scalar to `[lo, hi]`, the semantics of both
`torch.clamp(x, lo, hi)` and `numpy.clip(x, lo, hi)` (upper bound applied
last). -/
def clampQ (lo hi x : ℚ) : ℚ :=
  min (max x lo) hi

/-- Modelled from the spec: the `TD3_Actor` network of `td3.py` (absent from
the source tree) — per §4.2 its output is "post-processed by clamping every
component to the closed interval [action_low, action_high]".  `raw` is the
pre-clamp network output, an external quantity. -/
def actorOutput (lo hi : ℚ) (raw : List ℚ) : List ℚ :=
  raw.map (clampQ lo hi)

/-- Training-mode action selection (`Agent.run`, lines 206–209):
`action = select_action(state)`, then
`action = (action + noise).clip(-action_high, action_high)` where `noise` is
the exploration-noise draw. -/
def trainModeAction (lo hi : ℚ) (raw noise : List ℚ) : List ℚ :=
  (List.zipWith (· + ·) (actorOutput lo hi raw) noise).map (clampQ (-hi) hi)

/-- Evaluation-mode action selection (`Agent.run` line 206 with
`is_training = False`): the actor's output, unmodified. -/
def evalModeAction (lo hi : ℚ) (raw : List ℚ) : List ℚ :=
  actorOutput lo hi raw

/-- The smoothed target action of the learning step (`Agent.train`,
lines 154–155): `noise` is clamped to `[-noise_clip, noise_clip]`, then
`next_action = (actor_target(next_state) + noise).clamp(-action_high,
action_high)`.  `rawTarget` is the target actor's pre-clamp output. -/
def targetActionSmoothed (lo hi noise_clip : ℚ) (rawTarget noise : List ℚ) :
    List ℚ :=
  (List.zipWith (· + ·) (actorOutput lo hi rawTarget)
      (noise.map (clampQ (-noise_clip) noise_clip))).map (clampQ (-hi) hi)

/-- One row of the learning target (`Agent.train`, lines 157–159):
`target_Q = reward + (1 - done) * discount * min(target_Q1, target_Q2)`,
with the boolean `done` already converted to the float `0`/`1` by
`torch.FloatTensor`. -/
def targetQrow (discount reward : ℚ) (done : Bool) (tQ1 tQ2 : ℚ) : ℚ :=
  reward + (1 - (if done then (1 : ℚ) else 0)) * discount * min tQ1 tQ2

/-- The whole batch of learning targets, rows aligned by index. -/
def computeTargets (discount : ℚ) :
    List ℚ → List Bool → List ℚ → List ℚ → List ℚ
  | r :: rs, d :: ds, a :: as_, b :: bs =>
      targetQrow discount r d a b :: computeTargets discount rs ds as_ bs
  | _, _, _, _ => []

/-- The soft-update rule (`Agent.train`, lines 182 and 185):
`target_param ← τ·param + (1−τ)·target_param`, one parameter element. -/
def softUpdate (tau p tp : ℚ) : ℚ :=
  tau * p + (1 - tau) * tp

/-- The rule `softUpdate` iterated with the live value `p` held fixed, starting from
target value `tp`. -/
def softIter (tau p tp : ℚ) : ℕ → ℚ
  | 0 => tp
  | n + 1 => softUpdate tau p (softIter tau p tp n)

/-- The mutable state `Agent.train` operates on: the global step counter
`self.total_it` and the four parameter vectors (flattened).  `updateIts` and
`criticIts` are ghost logs of the `total_it` values at which the delayed
policy-and-target update branch and the critic update ran, respectively. -/
structure AgentState where
  total_it : ℕ
  critic : List ℚ
  critic_target : List ℚ
  actor : List ℚ
  actor_target : List ℚ
  updateIts : List ℕ
  criticIts : List ℕ
deriving DecidableEq, Repr

/-- A fresh agent: `self.total_it = 0`, target parameters an exact copy of
the live ones (`load_state_dict(... .state_dict())`). -/
def AgentState.fresh (critic0 actor0 : List ℚ) : AgentState :=
  ⟨0, critic0, critic0, actor0, actor0, [], []⟩

/-- One invocation of `Agent.train` (lines 144–187), with the optimizer's
gradient steps abstracted as additive parameter deltas supplied per
invocation (`criticDelta`, `actorDelta` — the optimizer is an external
collaborator).  Order as in the code: the critic optimizer step runs
unconditionally; then, only when `self.total_it % self.policy_freq == 0`,
the actor optimizer step and the soft update of both target networks (the
actor target is blended toward the just-updated actor); finally
`self.total_it += 1`. -/
def AgentState.trainStep (tau : ℚ) (policy_freq : ℕ)
    (criticDelta actorDelta : ℕ → List ℚ) (s : AgentState) : AgentState :=
  let critic' := List.zipWith (· + ·) s.critic (criticDelta s.total_it)
  if s.total_it % policy_freq = 0 then
    let actor' := List.zipWith (· + ·) s.actor (actorDelta s.total_it)
    { total_it := s.total_it + 1
      critic := critic'
      critic_target := List.zipWith (softUpdate tau) critic' s.critic_target
      actor := actor'
      actor_target := List.zipWith (softUpdate tau) actor' s.actor_target
      updateIts := s.updateIts ++ [s.total_it]
      criticIts := s.criticIts ++ [s.total_it] }
  else
    { s with
      total_it := s.total_it + 1
      critic := critic'
      criticIts := s.criticIts ++ [s.total_it] }

/-- Runs `N` consecutive invocations of `Agent.train`. -/
def AgentState.runTrain (tau : ℚ) (policy_freq : ℕ)
    (criticDelta actorDelta : ℕ → List ℚ) (s : AgentState) : ℕ → AgentState
  | 0 => s
  | n + 1 =>
      (AgentState.runTrain tau policy_freq criticDelta actorDelta s n).trainStep
        tau policy_freq criticDelta actorDelta

/-- One environment step result, the `(next_state, reward, terminated,
truncated)` quadruple returned by `self.env.step(action)` (the `info` member
is discarded by the code). -/
structure EnvStep where
  next_state : List ℚ
  reward : ℚ
  terminated : Bool
  truncated : Bool

/-- The per-episode loop state of `Agent.run` (training mode), plus two
ghost logs: `trainedBuffers` snapshots the replay buffer at every
`self.train()` invocation, and `storedFlags` records, for every stored
transition, the step index and the terminal flag it was stored with. -/
structure LoopState where
  step_count : ℕ
  terminated : Bool
  truncated : Bool
  state : List ℚ
  buffer : ReplayBuffer
  episode_reward : ℚ
  trainedBuffers : List ReplayBuffer
  storedFlags : List (ℕ × Bool)

/-- The loop guard of `Agent.run` line 205:
`not terminated and not truncated and not step_count == self.max_timestep`. -/
def loopGuard (max_timestep : ℕ) (s : LoopState) : Bool :=
  !s.terminated && !s.truncated && !(s.step_count == max_timestep)

/-- One iteration of the training-mode step loop (`Agent.run`, lines
206–222).  External inputs per step: `rawActor` the actor network's pre-clamp
output on the current state, `noiseDraw` the exploration-noise draw, and
`env` the environment's response to the chosen action.  The iteration:
select and perturb the action, step the environment, force the terminal flag
on the final in-budget step (`terminated = step_count == self.max_timestep - 1
or terminated`), store the transition, conditionally invoke `self.train()`
when `self.replay_buffer.size() > self.batch_size and
step_count % self.policy_freq == 0`, then advance `state`, accumulate the
reward, and increment `step_count`. -/
def episodeStep (max_timestep batch_size policy_freq : ℕ) (lo hi : ℚ)
    (rawActor : List ℚ → List ℚ) (noiseDraw : ℕ → List ℚ)
    (env : List ℚ → List ℚ → EnvStep) (s : LoopState) : LoopState :=
  let action := trainModeAction lo hi (rawActor s.state) (noiseDraw s.step_count)
  let e := env s.state action
  let term' := (s.step_count == max_timestep - 1) || e.terminated
  let buf' := s.buffer.add ⟨s.state, action, e.reward, e.next_state, term'⟩
  let trained' :=
    if batch_size < buf'.size && s.step_count % policy_freq == 0 then
      s.trainedBuffers ++ [buf']
    else
      s.trainedBuffers
  { step_count := s.step_count + 1
    terminated := term'
    truncated := e.truncated
    state := e.next_state
    buffer := buf'
    episode_reward := s.episode_reward + e.reward
    trainedBuffers := trained'
    storedFlags := s.storedFlags ++ [(s.step_count, term')] }

/-- The training-mode step loop of one episode, run with explicit fuel
(`fuel = max_timestep` suffices from a fresh episode, since `step_count`
increases by one per iteration and the guard stops at `max_timestep`). -/
def runEpisodeAux (max_timestep batch_size policy_freq : ℕ) (lo hi : ℚ)
    (rawActor : List ℚ → List ℚ) (noiseDraw : ℕ → List ℚ)
    (env : List ℚ → List ℚ → EnvStep) : ℕ → LoopState → LoopState
  | 0, s => s
  | fuel + 1, s =>
      if loopGuard max_timestep s then
        runEpisodeAux max_timestep batch_size policy_freq lo hi rawActor
          noiseDraw env fuel
          (episodeStep max_timestep batch_size policy_freq lo hi rawActor
            noiseDraw env s)
      else
        s

/-- The fresh per-episode loop state (`Agent.run`, lines 196–200):
`terminated = truncated = False`, `episode_reward = 0`, `step_count = 0`;
the replay buffer persists across episodes and is passed in. -/
def LoopState.init (s0 : List ℚ) (rb : ReplayBuffer) : LoopState :=
  ⟨0, false, false, s0, rb, 0, [], []⟩

/-- One full episode's step loop, from the fresh per-episode state. -/
def runEpisode (max_timestep batch_size policy_freq : ℕ) (lo hi : ℚ)
    (rawActor : List ℚ → List ℚ) (noiseDraw : ℕ → List ℚ)
    (env : List ℚ → List ℚ → EnvStep) (s0 : List ℚ) (rb : ReplayBuffer) :
    LoopState :=
  runEpisodeAux max_timestep batch_size policy_freq lo hi rawActor noiseDraw
    env max_timestep (LoopState.init s0 rb)

/-- The externally visible effects of the post-episode bookkeeping that the
claims distinguish: a checkpoint write (`self.save(...)`), the
average-reward log lines, and the new-best-reward log line (which ends in
"saving model..." but is only a print). -/
inductive RunEffect where
  | saveModel
  | logAvgReward (avg : ℚ)
  | logBestAvg (avg : ℚ)
  | logNewBest (reward pct : ℚ)
deriving DecidableEq, Repr

/-- The percentage printed by the new-best-reward log line (`Agent.run`,
lines 251–252): `best_reward = episode_reward` is executed first, and the
message then computes
`abs((episode_reward - best_reward) / best_reward) * 100` with the
already-overwritten `best_reward`. -/
def newBestLoggedPct (episode_reward best_reward_prior : ℚ) : ℚ :=
  let best_reward := episode_reward
  let _ := best_reward_prior
  |(episode_reward - best_reward) / best_reward| * 100

/-- Mean of the last 100 entries of the reward history
(`np.mean(self.rewards_per_episode[-100:])`). -/
def meanLast100 (hist : List ℚ) : ℚ :=
  let tailPart := hist.drop (hist.length - 100)
  (tailPart.sum) / tailPart.length

/-- The post-episode bookkeeping of `Agent.run` in training mode (lines
225–253), excluding the wall-clock-gated graph regeneration (external
Reporter).  Input: the episode index, the episode's return, the reward
history with the current return already appended (line 225), and the two
best-trackers.  Output: the updated trackers and the emitted effects, in
program order: the every-100-episodes block (average log; on a new best
average, `self.save` then the best-average log) precedes the
new-best-reward block (which overwrites `best_reward` and only prints). -/
def postEpisode (episode : ℕ) (episode_reward : ℚ) (hist : List ℚ)
    (best_reward best_average_reward : ℚ) : ℚ × ℚ × List RunEffect :=
  let blk1 : ℚ × List RunEffect :=
    if (episode + 1) % 100 = 0 then
      let avg := meanLast100 hist
      if best_average_reward < avg then
        (avg, [RunEffect.logAvgReward avg, RunEffect.saveModel,
               RunEffect.logBestAvg avg])
      else
        (best_average_reward, [RunEffect.logAvgReward avg])
    else
      (best_average_reward, [])
  let blk2 : ℚ × List RunEffect :=
    if best_reward < episode_reward ∧ 0 < episode then
      (episode_reward,
       [RunEffect.logNewBest episode_reward
          (newBestLoggedPct episode_reward best_reward)])
    else
      (best_reward, [])
  (blk2.1, blk1.1, blk1.2 ++ blk2.2)

lemma ReplayBuffer.addAll_append (rb : ReplayBuffer) (ts : List Transition)
    (t : Transition) :
    rb.addAll (ts ++ [t]) = (rb.addAll ts).add t := by
  simp [ReplayBuffer.addAll, List.foldl_append]

lemma ReplayBuffer.max_size_addAll (rb : ReplayBuffer) (ts : List Transition) :
    (rb.addAll ts).max_size = rb.max_size := by
  induction ts generalizing rb with
  | nil => rfl
  | cons t ts ih => simpa [ReplayBuffer.addAll, ReplayBuffer.add] using ih (rb.add t)

/-- Contents of a buffer after inserting `ts` into a fresh buffer of
capacity `C`: exactly the last `C` insertions, in insertion order. -/
lemma ReplayBuffer.buffer_addAll_empty (C : ℕ) (ts : List Transition) :
    ((ReplayBuffer.empty C).addAll ts).buffer = ts.drop (ts.length - C) := by
  induction ts using List.reverseRecOn with
  | nil => simp [ReplayBuffer.addAll, ReplayBuffer.empty]
  | append_singleton ts t ih =>
    rw [ReplayBuffer.addAll_append, ReplayBuffer.add, ih,
      ReplayBuffer.max_size_addAll]
    show (ts.drop (ts.length - C) ++ [t]).drop
        ((ts.drop (ts.length - C)).length + 1 - C) = (ts ++ [t]).drop ((ts ++ [t]).length - C)
    rcases le_or_lt (ts.length + 1) C with h | h
    · have h0 : ts.length - C = 0 := by omega
      have h1 : (ts.drop 0).length + 1 - C = 0 := by simp; omega
      simp [h0, h1, Nat.sub_eq_zero_of_le h]
    · have hlen : (ts.drop (ts.length - C)).length = C := by
        simp; omega
      rw [hlen]
      rcases Nat.eq_zero_or_pos C with hC | hC
      · subst hC
        simp
      · have h2 : C + 1 - C = 1 := by omega
        have h3 : (ts ++ [t]).length - C = ts.length + 1 - C := by simp
        rw [h2, h3]
        have h4 : ts.length + 1 - C ≤ ts.length := by omega
        rw [List.drop_append_of_le_length h4,
          List.drop_append_of_le_length (by rw [hlen]; omega)]
        have h5 : (ts.drop (ts.length - C)).drop 1 = ts.drop (ts.length + 1 - C) := by
          rw [List.drop_drop]
          congr 1
          omega
        rw [List.drop_drop]
        congr 2
        omega

lemma softIter_sub_eq (tau p tp : ℚ) (n : ℕ) :
    softIter tau p tp n - p = (1 - tau) ^ n * (tp - p) := by
  induction n with
  | zero => simp [softIter]
  | succ n ih =>
    have h : softIter tau p tp (n + 1) - p = (1 - tau) * (softIter tau p tp n - p) := by
      simp only [softIter, softUpdate]
      ring
    rw [h, ih]
    ring

/-- C1: the learning target is
`target_Q = reward + (1 - terminal) * discount * min(target_Q1, target_Q2)`;
a terminal row reduces to the bare reward, a non-terminal row carries the
full discounted bootstrap; batch rows are aligned, as in the
batch-of-two scenario with `terminal = [0, 1]`. -/
theorem train_targetQ_bellman (discount reward tQ1 tQ2 : ℚ) :
    targetQrow discount reward true tQ1 tQ2 = reward ∧
    targetQrow discount reward false tQ1 tQ2 =
      reward + discount * min tQ1 tQ2 ∧
    (∀ r1 r2 a1 a2 b1 b2 : ℚ,
      computeTargets discount [r1, r2] [false, true] [a1, a2] [b1, b2] =
        [r1 + discount * min a1 b1, r2]) := by
  refine ⟨by simp [targetQrow], by simp [targetQrow], ?_⟩
  intro r1 r2 a1 a2 b1 b2
  simp [computeTargets, targetQrow]

/-- C3: inserting any sequence of transitions into a fresh buffer of
capacity `C` leaves at most `C` stored transitions, and the contents are
exactly the `C` most recently added transitions in FIFO order (the suffix
of the insertion sequence). -/
theorem replayBuffer_capacity_fifo (C : ℕ) (ts : List Transition) :
    ((ReplayBuffer.empty C).addAll ts).size ≤ C ∧
    ((ReplayBuffer.empty C).addAll ts).buffer = ts.drop (ts.length - C) := by
  refine ⟨?_, ReplayBuffer.buffer_addAll_empty C ts⟩
  have h := ReplayBuffer.buffer_addAll_empty C ts
  simp only [ReplayBuffer.size, h, List.length_drop]
  omega

/-- C5: one soft update produces exactly `τ·a + (1−τ)·b`, and for
`τ ∈ (0, 1)` and `a ≠ b`, iterating the update with the live value `a` held
fixed moves the target strictly monotonically toward `a`: the distance to
`a` strictly decreases every step, and the iterates are strictly increasing
below `a` (when `b < a`) or strictly decreasing above `a` (when `a < b`). -/
theorem softUpdate_exact_and_monotone (tau a b : ℚ)
    (h0 : 0 < tau) (h1 : tau < 1) (hab : a ≠ b) :
    softUpdate tau a b = tau * a + (1 - tau) * b ∧
    (∀ n, |softIter tau a b (n + 1) - a| < |softIter tau a b n - a|) ∧
    (b < a → ∀ n, softIter tau a b n < softIter tau a b (n + 1) ∧
      softIter tau a b n < a) ∧
    (a < b → ∀ n, softIter tau a b (n + 1) < softIter tau a b n ∧
      a < softIter tau a b n) := by
  have hc0 : (0 : ℚ) < 1 - tau := by linarith
  have hc1 : 1 - tau < 1 := by linarith
  have hpow : ∀ n : ℕ, (0 : ℚ) < (1 - tau) ^ n := fun n => pow_pos hc0 n
  have hstep : ∀ n, softIter tau a b (n + 1) - a =
      (1 - tau) * (softIter tau a b n - a) := by
    intro n
    rw [softIter_sub_eq, softIter_sub_eq]
    ring
  refine ⟨rfl, ?_, ?_, ?_⟩
  · intro n
    have hne : softIter tau a b n - a ≠ 0 := by
      rw [softIter_sub_eq]
      exact mul_ne_zero (ne_of_gt (hpow n)) (sub_ne_zero.mpr (Ne.symm hab))
    rw [hstep n, abs_mul, abs_of_pos hc0]
    have habs : 0 < |softIter tau a b n - a| := abs_pos.mpr hne
    nlinarith
  · intro hba n
    have hneg : softIter tau a b n - a < 0 := by
      rw [softIter_sub_eq]
      nlinarith [hpow n]
    constructor
    · have := hstep n
      nlinarith
    · linarith
  · intro hba n
    have hposd : 0 < softIter tau a b n - a := by
      rw [softIter_sub_eq]
      nlinarith [hpow n]
    constructor
    · have := hstep n
      nlinarith
    · linarith

/-- C5 witness at `τ = 1/2`, `a = 1`, `b = 0`. -/
theorem softUpdate_exact_and_monotone_witness :
    (0 : ℚ) < 1/2 ∧ (1/2 : ℚ) < 1 ∧ (1 : ℚ) ≠ 0 ∧
    (softUpdate (1/2) 1 0 = (1/2) * 1 + (1 - 1/2) * 0 ∧
     (∀ n, |softIter (1/2) 1 0 (n + 1) - 1| < |softIter (1/2) 1 0 n - 1|) ∧
     ((0 : ℚ) < 1 → ∀ n, softIter (1/2) 1 0 n < softIter (1/2) 1 0 (n + 1) ∧
       softIter (1/2) 1 0 n < 1) ∧
     ((1 : ℚ) < 0 → ∀ n, softIter (1/2) 1 0 (n + 1) < softIter (1/2) 1 0 n ∧
       1 < softIter (1/2) 1 0 n)) :=
  ⟨by norm_num, by norm_num, by norm_num,
   softUpdate_exact_and_monotone (1/2) 1 0 (by norm_num) (by norm_num) (by norm_num)⟩

/-- C9: the new-best-reward log line computes its percentage after
`best_reward` has already been overwritten with `episode_reward`, so for any
nonzero episode reward the numerator vanishes and the printed percentage is
`0`. -/
theorem newBest_logged_pct_zero (episode_reward best_prior : ℚ)
    (_h : episode_reward ≠ 0) :
    newBestLoggedPct episode_reward best_prior = 0 := by
  simp [newBestLoggedPct]

/-- C9 witness at `episode_reward = 5`, prior best `= 1`. -/
theorem newBest_logged_pct_zero_witness :
    (5 : ℚ) ≠ 0 ∧ newBestLoggedPct 5 1 = 0 :=
  ⟨by norm_num, newBest_logged_pct_zero 5 1 (by norm_num)⟩

lemma runTrain_fresh_logs (tau : ℚ) (f : ℕ) (cd ad : ℕ → List ℚ)
    (c0 a0 : List ℚ) (N : ℕ) :
    (AgentState.runTrain tau f cd ad (AgentState.fresh c0 a0) N).total_it = N ∧
    (AgentState.runTrain tau f cd ad (AgentState.fresh c0 a0) N).criticIts =
      List.range N ∧
    (AgentState.runTrain tau f cd ad (AgentState.fresh c0 a0) N).updateIts =
      (List.range N).filter (fun i => i % f = 0) := by
  induction N with
  | zero => simp [AgentState.runTrain, AgentState.fresh]
  | succ N ih =>
    obtain ⟨h1, h2, h3⟩ := ih
    simp only [AgentState.runTrain, AgentState.trainStep, h1]
    by_cases hN : N % f = 0
    · simp [hN, h1, h2, h3, List.range_succ, List.filter_append]
    · simp [hN, h1, h2, h3, List.range_succ, List.filter_append]

lemma count_multiples_range (f : ℕ) (hf : 0 < f) (N : ℕ) :
    ((List.range N).filter (fun i => i % f = 0)).length = (N + f - 1) / f := by
  induction N with
  | zero =>
    have : (f - 1) / f = 0 := Nat.div_eq_of_lt (by omega)
    simpa using this.symm
  | succ N ih =>
    rw [List.range_succ, List.filter_append]
    have hsucc : (N + 1 + f - 1) / f = (N + f - 1) / f +
        if N % f = 0 then 1 else 0 := by
      have h1 : N + 1 + f - 1 = (N + f - 1) + 1 := by omega
      rw [h1, Nat.succ_div]
      have h2 : N + f - 1 + 1 = N + f := by omega
      rw [h2]
      have h3 : (f ∣ N + f) = (f ∣ N) := by
        simp [Nat.dvd_add_self_right]
      have h4 : (f ∣ N) ↔ N % f = 0 := Nat.dvd_iff_mod_eq_zero
      simp only [h3]
      by_cases hN : N % f = 0
      · simp [hN, h4.mpr hN]
      · have h5 : ¬ f ∣ N := fun hd => hN (h4.mp hd)
        simp [hN, h5]
    rw [hsucc]
    by_cases hN : N % f = 0
    · simp [hN, ih]
    · simp [hN, ih]

/-- C2 counterexample: after `N = 1` learning step from a fresh agent with
`policy_freq = 2`, the policy/target update branch has run once (at counter
value `0`, since `0 % 2 == 0`) and the critic target has genuinely moved,
yet `⌊N / policy_freq⌋ = ⌊1/2⌋ = 0`, so the claimed count is wrong. -/
theorem delayed_update_count_counterexample :
    (AgentState.runTrain (1/2) 2 (fun _ => [1]) (fun _ => [1])
        (AgentState.fresh [1] [1]) 1).updateIts.length = 1 ∧
    (1 : ℕ) / 2 = 0 ∧
    (AgentState.runTrain (1/2) 2 (fun _ => [1]) (fun _ => [1])
        (AgentState.fresh [1] [1]) 1).critic_target ≠ [1] := by
  refine ⟨rfl, rfl, ?_⟩
  intro hcontra
  have h := congrArg (fun l => l.headI) hcontra
  simp [AgentState.runTrain, AgentState.trainStep, AgentState.fresh,
    softUpdate] at h
  norm_num at h

/-- C2 amended: across `N` learning steps from a fresh agent the counter
takes values `0, …, N−1` (incremented after the update logic), the critic is
updated on every invocation, and the policy and both targets are updated on
exactly those invocations where the counter is divisible by `policy_freq` —
which is `⌈N / policy_freq⌉ = (N + policy_freq − 1) / policy_freq`
invocations, not `⌊N / policy_freq⌋`. -/
theorem delayed_update_cadence (tau : ℚ) (f : ℕ) (hf : 0 < f)
    (cd ad : ℕ → List ℚ) (c0 a0 : List ℚ) (N : ℕ) :
    (AgentState.runTrain tau f cd ad (AgentState.fresh c0 a0) N).total_it = N ∧
    (AgentState.runTrain tau f cd ad (AgentState.fresh c0 a0) N).criticIts =
      List.range N ∧
    (AgentState.runTrain tau f cd ad (AgentState.fresh c0 a0) N).updateIts =
      (List.range N).filter (fun i => i % f = 0) ∧
    (AgentState.runTrain tau f cd ad (AgentState.fresh c0 a0) N).updateIts.length =
      (N + f - 1) / f := by
  obtain ⟨h1, h2, h3⟩ := runTrain_fresh_logs tau f cd ad c0 a0 N
  exact ⟨h1, h2, h3, by rw [h3]; exact count_multiples_range f hf N⟩

/-- C2 witness at `policy_freq = 2`, `N = 5`: the update branch runs at
counter values 0, 2, 4 — that is `⌈5/2⌉ = 3` times. -/
theorem delayed_update_cadence_witness :
    0 < 2 ∧
    ((AgentState.runTrain 0 2 (fun _ => []) (fun _ => [])
        (AgentState.fresh [] []) 5).total_it = 5 ∧
     (AgentState.runTrain 0 2 (fun _ => []) (fun _ => [])
        (AgentState.fresh [] []) 5).criticIts = List.range 5 ∧
     (AgentState.runTrain 0 2 (fun _ => []) (fun _ => [])
        (AgentState.fresh [] []) 5).updateIts =
       (List.range 5).filter (fun i => i % 2 = 0) ∧
     (AgentState.runTrain 0 2 (fun _ => []) (fun _ => [])
        (AgentState.fresh [] []) 5).updateIts.length = (5 + 2 - 1) / 2) :=
  ⟨by decide, delayed_update_cadence 0 2 (by decide) (fun _ => []) (fun _ => []) [] [] 5⟩

lemma clampQ_mem (lo hi x : ℚ) (h : lo ≤ hi) :
    lo ≤ clampQ lo hi x ∧ clampQ lo hi x ≤ hi := by
  unfold clampQ
  constructor
  · exact le_min (le_max_right x lo) h
  · exact min_le_right _ _

/-- C4 counterexample: with `action_low = 0`, `action_high = 1`, pre-clamp
actor output `[0]` and exploration-noise draw `[-5]`, training-mode action
selection yields `[-1]` — the code clips to `[-action_high, action_high]`,
so the component falls below `action_low` and the claimed interval
`[action_low, action_high]` is violated. -/
theorem action_bounds_counterexample :
    trainModeAction 0 1 [0] [-5] = [-1] ∧
    ¬ ((0 : ℚ) ≤ -1 ∧ (-1 : ℚ) ≤ 1) := by
  constructor
  · simp [trainModeAction, actorOutput, clampQ]
  · intro hcontra
    norm_num at hcontra

/-- C4 amended: evaluation-mode actions (the actor's clamped output) lie in
`[action_low, action_high]`; training-mode actions and the smoothed target
action are clipped by the code to `[-action_high, action_high]` instead,
which coincides with the claimed interval exactly when
`action_low = -action_high`. -/
theorem action_bounds (lo hi c : ℚ) (hhi : 0 ≤ hi) (hlo : lo ≤ hi)
    (raw rawT noiseE noiseT : List ℚ) :
    (∀ x ∈ evalModeAction lo hi raw, lo ≤ x ∧ x ≤ hi) ∧
    (∀ x ∈ trainModeAction lo hi raw noiseE, -hi ≤ x ∧ x ≤ hi) ∧
    (∀ x ∈ targetActionSmoothed lo hi c rawT noiseT, -hi ≤ x ∧ x ≤ hi) ∧
    (lo = -hi →
      (∀ x ∈ trainModeAction lo hi raw noiseE, lo ≤ x ∧ x ≤ hi) ∧
      (∀ x ∈ targetActionSmoothed lo hi c rawT noiseT, lo ≤ x ∧ x ≤ hi)) := by
  have hsym : -hi ≤ hi := by linarith
  have heval : ∀ x ∈ evalModeAction lo hi raw, lo ≤ x ∧ x ≤ hi := by
    intro x hx
    simp only [evalModeAction, actorOutput, List.mem_map] at hx
    obtain ⟨y, _, rfl⟩ := hx
    exact clampQ_mem lo hi y hlo
  have htrain : ∀ x ∈ trainModeAction lo hi raw noiseE, -hi ≤ x ∧ x ≤ hi := by
    intro x hx
    simp only [trainModeAction, List.mem_map] at hx
    obtain ⟨y, _, rfl⟩ := hx
    exact clampQ_mem (-hi) hi y hsym
  have htarget : ∀ x ∈ targetActionSmoothed lo hi c rawT noiseT,
      -hi ≤ x ∧ x ≤ hi := by
    intro x hx
    simp only [targetActionSmoothed, List.mem_map] at hx
    obtain ⟨y, _, rfl⟩ := hx
    exact clampQ_mem (-hi) hi y hsym
  refine ⟨heval, htrain, htarget, ?_⟩
  intro hlohi
  exact ⟨fun x hx => by rw [hlohi]; exact htrain x hx,
         fun x hx => by rw [hlohi]; exact htarget x hx⟩

/-- C4 witness at `action_low = -1`, `action_high = 1`, `noise_clip = 1/2`. -/
theorem action_bounds_witness :
    (0 : ℚ) ≤ 1 ∧ (-1 : ℚ) ≤ 1 ∧
    ((∀ x ∈ evalModeAction (-1) 1 [2], (-1 : ℚ) ≤ x ∧ x ≤ 1) ∧
     (∀ x ∈ trainModeAction (-1) 1 [2] [3], -(1 : ℚ) ≤ x ∧ x ≤ 1) ∧
     (∀ x ∈ targetActionSmoothed (-1) 1 (1/2) [2] [3], -(1 : ℚ) ≤ x ∧ x ≤ 1) ∧
     ((-1 : ℚ) = -1 →
       (∀ x ∈ trainModeAction (-1) 1 [2] [3], (-1 : ℚ) ≤ x ∧ x ≤ 1) ∧
       (∀ x ∈ targetActionSmoothed (-1) 1 (1/2) [2] [3],
         (-1 : ℚ) ≤ x ∧ x ≤ 1))) :=
  ⟨by norm_num, by norm_num,
   action_bounds (-1) 1 (1/2) (by norm_num) (by norm_num) [2] [2] [3] [3]⟩

lemma column_getD {α : Type} (jx : List ℕ) (buf : List Transition)
    (g : Transition → α) (i : ℕ) (hi : i < jx.length) (d : α) :
    ((jx.map fun j => buf.getD j default).map g).getD i d =
      g (buf.getD (jx.getD i 0) default) := by
  have hi1 : i < ((jx.map fun j => buf.getD j default).map g).length := by
    simpa using hi
  rw [List.getD_eq_getElem _ d hi1, List.getElem_map, List.getElem_map,
    List.getD_eq_getElem jx 0 hi]

/-- C8: with store size ≥ `n` and a without-replacement draw of `n`
positions, `sample(n)` succeeds and returns five parallel sequences each of
length `n`, aligned by index: position `i` of all five columns is taken
from one and the same stored transition. -/
theorem sample_shape_aligned (rb : ReplayBuffer) (n : ℕ) (draw : List ℕ)
    (hn : n ≤ rb.size) (hd : ValidDraw rb n draw) :
    ∃ st ac re ns dn,
      rb.sample n draw = some (st, ac, re, ns, dn) ∧
      st.length = n ∧ ac.length = n ∧ re.length = n ∧ ns.length = n ∧
      dn.length = n ∧
      ∀ i, i < n →
        rb.buffer.getD (draw.getD i 0) default ∈ rb.buffer ∧
        st.getD i [] = (rb.buffer.getD (draw.getD i 0) default).state ∧
        ac.getD i [] = (rb.buffer.getD (draw.getD i 0) default).action ∧
        re.getD i 0 = (rb.buffer.getD (draw.getD i 0) default).reward ∧
        ns.getD i [] = (rb.buffer.getD (draw.getD i 0) default).next_state ∧
        dn.getD i false = (rb.buffer.getD (draw.getD i 0) default).done := by
  obtain ⟨hlen, _hnodup, hin⟩ := hd
  have hn' : n ≤ rb.buffer.length := hn
  refine ⟨(draw.map fun j => rb.buffer.getD j default).map Transition.state,
    (draw.map fun j => rb.buffer.getD j default).map Transition.action,
    (draw.map fun j => rb.buffer.getD j default).map Transition.reward,
    (draw.map fun j => rb.buffer.getD j default).map Transition.next_state,
    (draw.map fun j => rb.buffer.getD j default).map Transition.done,
    ?_, ?_, ?_, ?_, ?_, ?_, ?_⟩
  · unfold ReplayBuffer.sample
    rw [if_pos hn']
  · simp [hlen]
  · simp [hlen]
  · simp [hlen]
  · simp [hlen]
  · simp [hlen]
  · intro i hi
    have hi' : i < draw.length := by omega
    have hjmem : draw.getD i 0 ∈ draw := by
      rw [List.getD_eq_getElem draw 0 hi']
      exact List.getElem_mem hi'
    have hjlt : draw.getD i 0 < rb.buffer.length := hin _ hjmem
    have hbufmem : rb.buffer.getD (draw.getD i 0) default ∈ rb.buffer := by
      rw [List.getD_eq_getElem rb.buffer default hjlt]
      exact List.getElem_mem hjlt
    exact ⟨hbufmem,
      column_getD draw rb.buffer Transition.state i hi' [],
      column_getD draw rb.buffer Transition.action i hi' [],
      column_getD draw rb.buffer Transition.reward i hi' 0,
      column_getD draw rb.buffer Transition.next_state i hi' [],
      column_getD draw rb.buffer Transition.done i hi' false⟩

/-- C8 witness: a two-transition store sampled with `n = 2` and
draw `[1, 0]`. -/
theorem sample_shape_aligned_witness :
    (2 ≤ (ReplayBuffer.mk 4 [⟨[1], [2], 3, [4], false⟩,
            ⟨[5], [6], 7, [8], true⟩]).size) ∧
    ValidDraw (ReplayBuffer.mk 4 [⟨[1], [2], 3, [4], false⟩,
            ⟨[5], [6], 7, [8], true⟩]) 2 [1, 0] ∧
    (∃ st ac re ns dn,
      (ReplayBuffer.mk 4 [⟨[1], [2], 3, [4], false⟩,
         ⟨[5], [6], 7, [8], true⟩]).sample 2 [1, 0] =
          some (st, ac, re, ns, dn) ∧
      st.length = 2 ∧ ac.length = 2 ∧ re.length = 2 ∧ ns.length = 2 ∧
      dn.length = 2 ∧
      ∀ i, i < 2 →
        (ReplayBuffer.mk 4 [⟨[1], [2], 3, [4], false⟩,
           ⟨[5], [6], 7, [8], true⟩]).buffer.getD
             (List.getD [1, 0] i 0) default ∈
          (ReplayBuffer.mk 4 [⟨[1], [2], 3, [4], false⟩,
             ⟨[5], [6], 7, [8], true⟩]).buffer ∧
        st.getD i [] = ((ReplayBuffer.mk 4 [⟨[1], [2], 3, [4], false⟩,
           ⟨[5], [6], 7, [8], true⟩]).buffer.getD
             (List.getD [1, 0] i 0) default).state ∧
        ac.getD i [] = ((ReplayBuffer.mk 4 [⟨[1], [2], 3, [4], false⟩,
           ⟨[5], [6], 7, [8], true⟩]).buffer.getD
             (List.getD [1, 0] i 0) default).action ∧
        re.getD i 0 = ((ReplayBuffer.mk 4 [⟨[1], [2], 3, [4], false⟩,
           ⟨[5], [6], 7, [8], true⟩]).buffer.getD
             (List.getD [1, 0] i 0) default).reward ∧
        ns.getD i [] = ((ReplayBuffer.mk 4 [⟨[1], [2], 3, [4], false⟩,
           ⟨[5], [6], 7, [8], true⟩]).buffer.getD
             (List.getD [1, 0] i 0) default).next_state ∧
        dn.getD i false = ((ReplayBuffer.mk 4 [⟨[1], [2], 3, [4], false⟩,
           ⟨[5], [6], 7, [8], true⟩]).buffer.getD
             (List.getD [1, 0] i 0) default).done) :=
  ⟨by decide, ⟨rfl, by decide, by decide⟩,
   sample_shape_aligned _ 2 [1, 0] (by decide) ⟨rfl, by decide, by decide⟩⟩

lemma episodeStep_trained_inv (maxT batch f : ℕ) (lo hi : ℚ)
    (rawActor : List ℚ → List ℚ) (noiseDraw : ℕ → List ℚ)
    (env : List ℚ → List ℚ → EnvStep) (s : LoopState)
    (hs : ∀ b ∈ s.trainedBuffers, batch < b.size) :
    ∀ b ∈ (episodeStep maxT batch f lo hi rawActor noiseDraw env s).trainedBuffers,
      batch < b.size := by
  intro b hb
  simp only [episodeStep] at hb
  split at hb
  · rename_i hc
    rcases List.mem_append.mp hb with hb' | hb'
    · exact hs b hb'
    · have hlt := (Bool.and_eq_true _ _).mp hc |>.1
      rw [List.mem_singleton.mp hb']
      exact of_decide_eq_true hlt
  · exact hs b hb

lemma runEpisodeAux_trained_inv (maxT batch f : ℕ) (lo hi : ℚ)
    (rawActor : List ℚ → List ℚ) (noiseDraw : ℕ → List ℚ)
    (env : List ℚ → List ℚ → EnvStep) (fuel : ℕ) (s : LoopState)
    (hs : ∀ b ∈ s.trainedBuffers, batch < b.size) :
    ∀ b ∈ (runEpisodeAux maxT batch f lo hi rawActor noiseDraw env fuel
        s).trainedBuffers, batch < b.size := by
  induction fuel generalizing s with
  | zero => exact hs
  | succ fuel ih =>
    rw [runEpisodeAux]
    split
    · exact ih _ (episodeStep_trained_inv maxT batch f lo hi rawActor
        noiseDraw env s hs)
    · exact hs

lemma episodeStep_flags_inv (maxT batch f : ℕ) (lo hi : ℚ)
    (rawActor : List ℚ → List ℚ) (noiseDraw : ℕ → List ℚ)
    (env : List ℚ → List ℚ → EnvStep) (s : LoopState)
    (hs : ∀ p ∈ s.storedFlags, p.1 = maxT - 1 → p.2 = true) :
    ∀ p ∈ (episodeStep maxT batch f lo hi rawActor noiseDraw env s).storedFlags,
      p.1 = maxT - 1 → p.2 = true := by
  intro p hp
  simp only [episodeStep] at hp
  rcases List.mem_append.mp hp with hp' | hp'
  · exact hs p hp'
  · rw [List.mem_singleton.mp hp']
    intro hidx
    simp only at hidx ⊢
    rw [hidx]
    simp

lemma runEpisodeAux_flags_inv (maxT batch f : ℕ) (lo hi : ℚ)
    (rawActor : List ℚ → List ℚ) (noiseDraw : ℕ → List ℚ)
    (env : List ℚ → List ℚ → EnvStep) (fuel : ℕ) (s : LoopState)
    (hs : ∀ p ∈ s.storedFlags, p.1 = maxT - 1 → p.2 = true) :
    ∀ p ∈ (runEpisodeAux maxT batch f lo hi rawActor noiseDraw env fuel
        s).storedFlags, p.1 = maxT - 1 → p.2 = true := by
  induction fuel generalizing s with
  | zero => exact hs
  | succ fuel ih =>
    rw [runEpisodeAux]
    split
    · exact ih _ (episodeStep_flags_inv maxT batch f lo hi rawActor
        noiseDraw env s hs)
    · exact hs

lemma runEpisodeAux_exit (maxT batch f : ℕ) (lo hi : ℚ)
    (rawActor : List ℚ → List ℚ) (noiseDraw : ℕ → List ℚ)
    (env : List ℚ → List ℚ → EnvStep) (fuel : ℕ) (s : LoopState)
    (hfuel : maxT = fuel + s.step_count) :
    (runEpisodeAux maxT batch f lo hi rawActor noiseDraw env fuel
        s).terminated = true ∨
    (runEpisodeAux maxT batch f lo hi rawActor noiseDraw env fuel
        s).truncated = true ∨
    (runEpisodeAux maxT batch f lo hi rawActor noiseDraw env fuel
        s).step_count = maxT := by
  induction fuel generalizing s with
  | zero =>
    right; right
    simpa using hfuel.symm
  | succ fuel ih =>
    rw [runEpisodeAux]
    split
    · exact ih _ (by simp [episodeStep]; omega)
    · rename_i hg
      cases ht : s.terminated with
      | true => exact Or.inl rfl
      | false =>
        cases htr : s.truncated with
        | true => exact Or.inr (Or.inl rfl)
        | false =>
          right; right
          by_contra hne
          apply hg
          simp only [loopGuard, ht, htr, Bool.not_false, Bool.true_and]
          simp [hne]

/-- C6: every replay-buffer snapshot at which the episode loop invoked
`self.train()` satisfies `batch_size < size` — the loop's guard
`buffer.size() > batch_size and step_count % policy_freq == 0` ensures the
`sample(batch_size)` call inside the learning step has `size ≥ batch_size`,
so the insufficient-data failure of `random.sample` is unreachable from the
episode loop. -/
theorem train_sample_precondition (maxT batch f : ℕ) (lo hi : ℚ)
    (rawActor : List ℚ → List ℚ) (noiseDraw : ℕ → List ℚ)
    (env : List ℚ → List ℚ → EnvStep) (s0 : List ℚ) (rb rb' : ReplayBuffer)
    (hmem : rb' ∈ (runEpisode maxT batch f lo hi rawActor noiseDraw env s0
        rb).trainedBuffers) :
    batch < rb'.size ∧ ∀ draw, (rb'.sample batch draw).isSome = true := by
  have hlt : batch < rb'.size :=
    runEpisodeAux_trained_inv maxT batch f lo hi rawActor noiseDraw env maxT
      (LoopState.init s0 rb) (by simp [LoopState.init]) rb' hmem
  refine ⟨hlt, fun draw => ?_⟩
  have hle : batch ≤ rb'.buffer.length := le_of_lt hlt
  unfold ReplayBuffer.sample
  rw [if_pos hle]
  rfl

/-- C7: the step loop of one episode ends only by environment termination,
environment truncation, or the step counter reaching `max_timestep`; and
every transition stored at step index `max_timestep − 1` (the final
in-budget step) carries a forced `terminal = true` flag. -/
theorem episode_termination_truncation (maxT batch f : ℕ) (lo hi : ℚ)
    (rawActor : List ℚ → List ℚ) (noiseDraw : ℕ → List ℚ)
    (env : List ℚ → List ℚ → EnvStep) (s0 : List ℚ) (rb : ReplayBuffer) :
    ((runEpisode maxT batch f lo hi rawActor noiseDraw env s0
        rb).terminated = true ∨
     (runEpisode maxT batch f lo hi rawActor noiseDraw env s0
        rb).truncated = true ∨
     (runEpisode maxT batch f lo hi rawActor noiseDraw env s0
        rb).step_count = maxT) ∧
    ∀ p ∈ (runEpisode maxT batch f lo hi rawActor noiseDraw env s0
        rb).storedFlags, p.1 = maxT - 1 → p.2 = true := by
  constructor
  · exact runEpisodeAux_exit maxT batch f lo hi rawActor noiseDraw env maxT
      (LoopState.init s0 rb) (by simp [LoopState.init])
  · exact runEpisodeAux_flags_inv maxT batch f lo hi rawActor noiseDraw env
      maxT (LoopState.init s0 rb) (by simp [LoopState.init])

/-- C6 witness: a one-step episode (`max_timestep = 1`, `batch_size = 0`,
`policy_freq = 1`) in which the learning step fires once. -/
theorem train_sample_precondition_witness :
    ReplayBuffer.mk 5 [⟨[], [], 0, [], true⟩] ∈
      (runEpisode 1 0 1 (-1) 1 (fun _ => []) (fun _ => [])
        (fun _ _ => ⟨[], 0, false, false⟩) []
        (ReplayBuffer.empty 5)).trainedBuffers ∧
    (0 < (ReplayBuffer.mk 5 [⟨[], [], 0, [], true⟩]).size ∧
     ∀ draw,
       ((ReplayBuffer.mk 5 [⟨[], [], 0, [], true⟩]).sample 0
           draw).isSome = true) :=
  ⟨by decide,
   train_sample_precondition 1 0 1 (-1) 1 (fun _ => []) (fun _ => [])
     (fun _ _ => ⟨[], 0, false, false⟩) [] (ReplayBuffer.empty 5)
     (ReplayBuffer.mk 5 [⟨[], [], 0, [], true⟩]) (by decide)⟩

/-- C10: when a single episode's reward beats the best so far (with
`episode > 0`), the post-episode bookkeeping only overwrites the
best-reward tracker and emits the "saving model..." log line — no
checkpoint write; `self.save` is emitted exactly when the
every-100-episodes branch finds the mean of the last 100 returns above the
best-seen average. -/
theorem checkpoint_only_from_average (episode : ℕ) (r : ℚ) (hist : List ℚ)
    (br ba : ℚ) (hbr : br < r) (hep : 0 < episode) :
    (postEpisode episode r hist br ba).1 = r ∧
    (¬ (episode + 1) % 100 = 0 →
      (postEpisode episode r hist br ba).2.2 =
        [RunEffect.logNewBest r (newBestLoggedPct r br)] ∧
      RunEffect.saveModel ∉ (postEpisode episode r hist br ba).2.2) ∧
    (RunEffect.saveModel ∈ (postEpisode episode r hist br ba).2.2 ↔
      (episode + 1) % 100 = 0 ∧ ba < meanLast100 hist) := by
  have hcond : br < r ∧ 0 < episode := ⟨hbr, hep⟩
  by_cases h100 : (episode + 1) % 100 = 0
  · by_cases havg : ba < meanLast100 hist
    · refine ⟨?_, fun hn => absurd h100 hn, ?_⟩
      · simp [postEpisode, h100, havg, hcond]
      · simp [postEpisode, h100, havg, hcond]
    · refine ⟨?_, fun hn => absurd h100 hn, ?_⟩
      · simp [postEpisode, h100, havg, hcond]
      · simp [postEpisode, h100, havg, hcond]
  · refine ⟨?_, fun _ => ⟨?_, ?_⟩, ?_⟩
    · simp [postEpisode, h100, hcond]
    · simp [postEpisode, h100, hcond]
    · simp [postEpisode, h100, hcond]
    · simp [postEpisode, h100, hcond]

/-- C10 witness at `episode = 1`, reward `5`, prior bests `0`. -/
theorem checkpoint_only_from_average_witness :
    (0 : ℚ) < 5 ∧ 0 < 1 ∧
    ((postEpisode 1 5 [5] 0 0).1 = 5 ∧
     (¬ (1 + 1) % 100 = 0 →
       (postEpisode 1 5 [5] 0 0).2.2 =
         [RunEffect.logNewBest 5 (newBestLoggedPct 5 0)] ∧
       RunEffect.saveModel ∉ (postEpisode 1 5 [5] 0 0).2.2) ∧
     (RunEffect.saveModel ∈ (postEpisode 1 5 [5] 0 0).2.2 ↔
       (1 + 1) % 100 = 0 ∧ (0 : ℚ) < meanLast100 [5])) :=
  ⟨by norm_num, by norm_num,
   checkpoint_only_from_average 1 5 [5] 0 0 (by norm_num) (by norm_num)⟩

end TD3
